import Mathlib

set_option maxRecDepth 4000
set_option maxHeartbeats 1000000

/-!
Verification development for the torch2trt tracing core.

Shallow embedding of the relevant parts of `torch2trt/torch2trt.py`
(`check_torch_dtype`, `trt_`, `attach_converter`) and of
`torch2trt/converters/getitem.py` (`slice_to_trt`, `num_slice_types`,
`convert_tensor_getitem`).  Host tensors are summarised by an identity
(standing for Python object identity), an element dtype and a host shape;
the TensorRT network is summarised by a state recording created layers and
the `_trt` shadow bindings attached to host tensors.
-/

namespace Torch2TRT

/-- Element dtypes relevant to the tracer (`torch.float` is `float32`,
`torch.long` is `int64`). -/
inductive TDtype where
  | float32
  | float16
  | int32
  | int64
  | int8
  deriving DecidableEq

/-- An operand passed to the broadcast resolver `trt_`: a host tensor
(identified by object identity `id`, with element dtype and host shape), a
Python `float` scalar or a Python `int` scalar.  Scalar values are carried
as integers; only their kind matters for dtype selection and shapes. -/
inductive Operand where
  | tensor (id : Nat) (dtype : TDtype) (shape : List Nat)
  | fscalar (val : Int)
  | iscalar (val : Int)
  deriving DecidableEq

/-- Returns true exactly for tensor operands (`isinstance(t, torch.Tensor)`). -/
def Operand.isTensor : Operand → Bool
  | .tensor _ _ _ => true
  | _ => false

/-- Failure modes of `check_torch_dtype` / `trt_`: the
`assert(dtype == t.dtype)` mismatch and the final
`assert(dtype is not None)`. -/
inductive TrtError where
  | dtypeMismatch
  | noDtype
  deriving DecidableEq

instance {ε α : Type} [DecidableEq ε] [DecidableEq α] : DecidableEq (Except ε α) := fun x y =>
  match x, y with
  | .ok a, .ok b =>
    if h : a = b then isTrue (by rw [h]) else isFalse (fun he => by cases he; exact h rfl)
  | .error a, .error b =>
    if h : a = b then isTrue (by rw [h]) else isFalse (fun he => by cases he; exact h rfl)
  | .ok _, .error _ => isFalse (fun he => by cases he)
  | .error _, .ok _ => isFalse (fun he => by cases he)

/-- First loop of `check_torch_dtype`: fold over the operands, taking the
dtype of the first tensor seen and asserting that every later tensor has
the same dtype. -/
def checkTensorsDtype : List Operand → Option TDtype → Except TrtError (Option TDtype)
  | [], acc => .ok acc
  | .tensor _ d _ :: rest, acc =>
    match acc with
    | none => checkTensorsDtype rest (some d)
    | some d0 => if d0 = d then checkTensorsDtype rest (some d0) else .error .dtypeMismatch
  | .fscalar _ :: rest, acc => checkTensorsDtype rest acc
  | .iscalar _ :: rest, acc => checkTensorsDtype rest acc

/-- Second loop of `check_torch_dtype`: a `float` scalar sets the dtype to
`torch.float` and an `int` scalar sets it to `torch.int32`, in each case
only when no dtype has been fixed yet. -/
def scalarsDtype : List Operand → Option TDtype → Option TDtype
  | [], acc => acc
  | .fscalar _ :: rest, acc =>
    match acc with
    | none => scalarsDtype rest (some .float32)
    | some d => scalarsDtype rest (some d)
  | .iscalar _ :: rest, acc =>
    match acc with
    | none => scalarsDtype rest (some .int32)
    | some d => scalarsDtype rest (some d)
  | .tensor _ _ _ :: rest, acc => scalarsDtype rest acc

/-- Model of `check_torch_dtype(*tensors)`: tensor dtypes must agree; otherwise the
first scalar fixes the dtype; `assert(dtype is not None)` at the end. -/
def check_torch_dtype (ops : List Operand) : Except TrtError TDtype :=
  match checkTensorsDtype ops none with
  | .error e => .error e
  | .ok acc =>
    match scalarsDtype ops acc with
    | some d => .ok d
    | none => .error .noDtype

/-- A TensorRT `ITensor` (a Graph Handle): the identity of the layer output
it refers to, and its shape. -/
structure TrtTensor where
  node : Nat
  shape : List Nat
  deriving DecidableEq

/-- Record of a layer created on the network by the code under study.
`constant` records `network.add_constant` (with the host tensor it
materialises, if any); `shuffle` records `network.add_shuffle` together
with the `reshape_dims` assigned to it. -/
inductive LayerRec where
  | constant (node : Nat) (shape : List Nat) (forTensor : Option Nat)
  | shuffle (node : Nat) (input : Nat) (reshapeDims : List Nat)
  deriving DecidableEq

/-- The mutable tracing state seen by `trt_`: a fresh-node counter, the
layers created so far, and the `_trt` shadow bindings (host tensor
identity to Graph Handle). -/
structure NetState where
  nextNode : Nat
  layers : List LayerRec
  bindings : List (Nat × TrtTensor)
  deriving DecidableEq

/-- Model of `network.add_constant(shape, weight).get_output(0)`. -/
def addConstant (st : NetState) (sh : List Nat) (forT : Option Nat) : NetState × TrtTensor :=
  ({ nextNode := st.nextNode + 1,
     layers := st.layers ++ [LayerRec.constant st.nextNode sh forT],
     bindings := st.bindings },
   ⟨st.nextNode, sh⟩)

/-- Model of `network.add_shuffle(t)` with `layer.reshape_dims = sh`. -/
def addShuffle (st : NetState) (input : Nat) (sh : List Nat) : NetState × TrtTensor :=
  ({ nextNode := st.nextNode + 1,
     layers := st.layers ++ [LayerRec.shuffle st.nextNode input sh],
     bindings := st.bindings },
   ⟨st.nextNode, sh⟩)

/-- Assignment `t._trt = h`. -/
def bindTensor (st : NetState) (id : Nat) (h : TrtTensor) : NetState :=
  { st with bindings := (id, h) :: st.bindings }

/-- Lookup behind `hasattr` and attribute access on `_trt`: the binding attached to a host tensor
identity, newest entry first. -/
def lookupBinding : List (Nat × TrtTensor) → Nat → Option TrtTensor
  | [], _ => none
  | (k, v) :: rest, id => if id = k then some v else lookupBinding rest id

/-- The shape `trt_` sees for a host tensor: the shape of its bound Graph
Handle when the `_trt` attribute is present, else its host shape (the shape the
constant materialised for it would get: `shape = tuple(t.shape)`). -/
def effShape (st : NetState) (id : Nat) (sh : List Nat) : List Nat :=
  match lookupBinding st.bindings id with
  | some h => h.shape
  | none => sh

/-- Rank contribution of one operand to `broadcast_num_dim`: tensors
contribute `len(t._trt.shape)` when bound, `len(t.shape)` when leaf
(comment in source: do not exclude batch for constants); scalars
contribute nothing. -/
def dimContribution (st : NetState) : Operand → Nat
  | .tensor id _ sh => (effShape st id sh).length
  | .fscalar _ => 0
  | .iscalar _ => 0

/-- The `broadcast_num_dim` loop of `trt_`: running maximum, starting
from 0, of the tensor operands' ranks. -/
def broadcastNumDim (st : NetState) (ops : List Operand) : Nat :=
  ops.foldl (fun acc op => max acc (dimContribution st op)) 0

/-- The GET-TRT-TENSOR-OR-CREATE-CONSTANT step of `trt_` for one operand:
a bound tensor yields its `_trt`; a leaf tensor materialises a constant
with its full host shape and stores it in `_trt`; a scalar materialises a
`(1,)`-shaped constant (its payload is the scalar value broadcast to that
shape, which does not affect the recorded layer structure). -/
def stepBind (st : NetState) (op : Operand) : NetState × TrtTensor :=
  match op with
  | .tensor id _ sh =>
    match lookupBinding st.bindings id with
    | some h => (st, h)
    | none =>
      let p := addConstant st sh (some id)
      (bindTensor p.1 id p.2, p.2)
  | .fscalar _ => addConstant st [1] none
  | .iscalar _ => addConstant st [1] none

/-- The MAKE-BROADCASTABLE step of `trt_`: when the handle's rank is
below `broadcast_num_dim`, add a shuffle layer whose `reshape_dims`
left-pads the shape with singleton dimensions. -/
def padTo (st : NetState) (bnd : Nat) (h : TrtTensor) : NetState × TrtTensor :=
  if h.shape.length < bnd then
    addShuffle st h.node (List.replicate (bnd - h.shape.length) 1 ++ h.shape)
  else
    (st, h)

/-- Processing of one operand inside the main loop of `trt_`. -/
def trtOne (st : NetState) (bnd : Nat) (op : Operand) : NetState × TrtTensor :=
  let p := stepBind st op
  padTo p.1 bnd p.2

/-- The main loop of `trt_` over all operands, threading the network
state. -/
def trtList (bnd : Nat) : NetState → List Operand → NetState × List TrtTensor
  | st, [] => (st, [])
  | st, op :: rest =>
    let p := trtOne st bnd op
    let q := trtList bnd p.1 rest
    (q.1, p.2 :: q.2)

/-- Model of `trt_(network, *tensors)`: check dtypes (an assertion failure aborts
before anything is created), compute `broadcast_num_dim`, then process
each operand.  The Python function unwraps a singleton result list; the
model always returns the list, in input order. -/
def trt_ (st : NetState) (ops : List Operand) : Except TrtError (NetState × List TrtTensor) :=
  match check_torch_dtype ops with
  | .error e => .error e
  | .ok _ => .ok (trtList (broadcastNumDim st ops) st ops)

/-- Shape produced by the broadcast padding: left-pad with singleton
dimensions up to rank `bnd`. -/
def padShape (bnd : Nat) (s : List Nat) : List Nat :=
  List.replicate (bnd - s.length) 1 ++ s

/-- The unpadded shape `trt_` associates to an operand of the call, as a
function of the state at entry: a bound tensor's handle shape, a leaf
tensor's host shape, `[1]` for a scalar. -/
def origShape (st : NetState) : Operand → List Nat
  | .tensor id _ sh => effShape st id sh
  | .fscalar _ => [1]
  | .iscalar _ => [1]

/-- Number of constant layers materialised for a given host tensor. -/
def isConstantFor (id : Nat) : LayerRec → Bool
  | .constant _ _ (some j) => j = id
  | _ => false

/-- Count of constant layers created for host tensor `id`. -/
def countConstantsFor (st : NetState) (id : Nat) : Nat :=
  (st.layers.filter (isConstantFor id)).length

/-- The dtypes of the tensor operands, in order. -/
def tensorDtypes (ops : List Operand) : List TDtype :=
  ops.filterMap (fun op => match op with
    | .tensor _ d _ => some d
    | _ => none)

/-- Dtype contributed by a scalar operand (`torch.float` for `float`,
`torch.int32` for `int`), none for a tensor. -/
def scalarKindDtype : Operand → Option TDtype
  | .fscalar _ => some .float32
  | .iscalar _ => some .int32
  | .tensor _ _ _ => none

/-- Dtype of the first scalar operand, if any. -/
def firstScalarDtype (ops : List Operand) : Option TDtype :=
  ops.findSome? scalarKindDtype

/-! ## Indexing translator (`converters/getitem.py`) -/

/-- One element of a raw index expression: a `slice` object, an integer, the
`Ellipsis`, `None` (newaxis), or an index tensor (with its identity, dtype
and shape). -/
inductive IdxElem where
  | sl (start stop step : Option Int)
  | idx (v : Int)
  | ell
  | newaxis
  | tens (id : Nat) (dtype : TDtype) (shape : List Nat)
  deriving DecidableEq

/-- The full slice `slice(None, None, None)`. -/
def fullSlice : IdxElem := .sl none none none

/-- Condition `isinstance(s, slice) or isinstance(s, int)`, the condition counted by
`num_slice_types`. -/
def isSliceType : IdxElem → Bool
  | .sl _ _ _ => true
  | .idx _ => true
  | _ => false

/-- Condition `isinstance(s, slice)` alone. -/
def isSliceInst : IdxElem → Bool
  | .sl _ _ _ => true
  | _ => false

/-- Model of `num_slice_types(slices)`: number of `slice` or `int` elements. -/
def num_slice_types (l : List IdxElem) : Nat :=
  (l.filter isSliceType).length

/-- Model of `slice_to_trt(dim_size, dim_slice)`: defaults `start = 0`,
`stop = dim_size`, `stride = 1` for `None` fields, and
`size = (stop - start - 1) // stride + 1` with Python floor division. -/
def slice_to_trt (dim_size : Int) (start stop step : Option Int) : Int × Int × Int :=
  let start := start.getD 0
  let stop := stop.getD dim_size
  let stride := step.getD 1
  (start, (stop - start - 1).fdiv stride + 1, stride)

/-- The ellipsis-expansion loop building `new_slices`: a slice, `None` or
`int` element is kept, an index tensor is replaced by a full slice, and the
`Ellipsis` is replaced by full slices while the running `num_ellipsis`
counter is positive (the counter is decremented per appended slice, so a
positive counter is consumed to zero and a non-positive one is left as
is). -/
def expandEllipsis : List IdxElem → Int → List IdxElem
  | [], _ => []
  | .ell :: rest, n =>
    List.replicate n.toNat fullSlice ++ expandEllipsis rest (if 0 < n then 0 else n)
  | .sl a b c :: rest, n => .sl a b c :: expandEllipsis rest n
  | .newaxis :: rest, n => .newaxis :: expandEllipsis rest n
  | .idx v :: rest, n => .idx v :: expandEllipsis rest n
  | .tens _ _ _ :: rest, n => fullSlice :: expandEllipsis rest n

/-- The value of `num_ellipsis = len(input.shape) - num_slice_types(slices)`
clamped to the number of full slices the expansion loop actually appends. -/
def ellipsisExpansionCount (hostShape : List Nat) (raw : List IdxElem) : Nat :=
  ((hostShape.length : Int) - (num_slice_types raw : Int)).toNat

/-- Step 1 of `convert_tensor_getitem`: expand the ellipsis, then
right-pad with full slices until every host dimension is covered
(`while num_slice_types(new_slices) < len(input.shape)`). -/
def normalizeSlices (hostShape : List Nat) (raw : List IdxElem) : List IdxElem :=
  let ns := expandEllipsis raw ((hostShape.length : Int) - (num_slice_types raw : Int))
  ns ++ List.replicate (hostShape.length - num_slice_types ns) fullSlice

/-- Step 3 of `convert_tensor_getitem`: walk `new_slices` with an input
dimension cursor, breaking once the cursor reaches the rank of the input's
Graph Handle; a slice element contributes `slice_to_trt` of the host size
at the cursor, an integer element contributes `(value, 1, 1)`, and both
advance the cursor; other elements are ignored. -/
def accumTriples (hostShape : List Nat) (trtRank : Nat) : List IdxElem → Nat → List (Int × Int × Int)
  | [], _ => []
  | s :: rest, inputDim =>
    if trtRank ≤ inputDim then []
    else
      match s with
      | .sl a b c =>
        slice_to_trt (hostShape.getD inputDim 0 : Int) a b c
          :: accumTriples hostShape trtRank rest (inputDim + 1)
      | .idx v => ((v : Int), 1, 1) :: accumTriples hostShape trtRank rest (inputDim + 1)
      | _ => accumTriples hostShape trtRank rest inputDim

/-- Step 3.5 of `convert_tensor_getitem`: the positions (within the
post-Step-2 `slices` list) of index tensors with `int32` or `long` dtype,
together with the tensor's identity and the shape of the handle `trt_`
yields for it (for a leaf index tensor, its host shape). -/
def gatherPositions (l : List IdxElem) : List (Nat × Nat × List Nat) :=
  l.enum.filterMap (fun p => match p.2 with
    | .tens id d sh => if d = .int32 ∨ d = .int64 then some (p.1, id, sh) else none
    | _ => none)

/-- Output shape of `network.add_gather(data, indices, axis)`: the data
shape with the dimension at `axis` replaced by the indices shape. -/
def applyGather (data : List Int) (indicesShape : List Nat) (axis : Nat) : List Int :=
  data.take axis ++ indicesShape.map (Int.ofNat) ++ data.drop (axis + 1)

/-- Trace of the layers emitted by one `convert_tensor_getitem` call. -/
structure GetitemTrace where
  new_slices : List IdxElem
  starts : List Int
  sizes : List Int
  strides : List Int
  gathers : List (Nat × Nat)
  reshapeDims : Option (List Nat)
  outShape : List Int
  deriving DecidableEq

/-- Model of `convert_tensor_getitem(ctx)` as a function of the mode flag, the host
shape of the indexed tensor, the shape of its Graph Handle, the raw
(tuple-wrapped) index expression and the host-computed output shape.
Step 1 normalizes into `new_slices`; Step 2 rebinds `slices` to
`new_slices[1:]` only in legacy fixed-batch mode (in dynamic mode `slices`
stays the raw expression); Step 3 accumulates the strided-slice triples by
walking `new_slices`; Step 3.5 emits one gather per integer index tensor
found in `slices`, at its position there, chained left to right; Step 4
adds a reshape to the host output shape (batch excluded in legacy mode)
when `slices` holds any non-slice element.  `gathers` lists
(tensor identity, gather axis) pairs in emission order; `outShape` is the
shape of the Graph Handle bound to the call's return value. -/
def convert_tensor_getitem (dyn : Bool) (hostShape inputTrtShape : List Nat)
    (raw : List IdxElem) (outputHostShape : List Nat) : GetitemTrace :=
  let new_slices := normalizeSlices hostShape raw
  let slices := if dyn then raw else new_slices.drop 1
  let triples := accumTriples hostShape inputTrtShape.length new_slices 0
  let sliceOutShape : List Int := triples.map (fun t => t.2.1)
  let gp := gatherPositions slices
  let afterGather := gp.foldl (fun sh g => applyGather sh g.2.2 g.1) sliceOutShape
  let numNonSlice := (slices.filter (fun s => ! isSliceInst s)).length
  let rd := if dyn then outputHostShape else outputHostShape.drop 1
  { new_slices := new_slices
    starts := triples.map (fun t => t.1)
    sizes := sliceOutShape
    strides := triples.map (fun t => t.2.2)
    gathers := gp.map (fun g => (g.2.1, g.1))
    reshapeDims := if 0 < numNonSlice then some rd else none
    outShape := if 0 < numNonSlice then rd.map Int.ofNat else afterGather }

/-- Model of `convert_tensor_getitem` applied to a traced network input: per
`ConversionContext.add_inputs`, the input's Graph Handle has the full host
shape in dynamic mode and the host shape without the batch dimension in
legacy fixed-batch mode. -/
def convert_getitem_traced (dyn : Bool) (hostShape : List Nat)
    (raw : List IdxElem) (outputHostShape : List Nat) : GetitemTrace :=
  convert_tensor_getitem dyn hostShape (if dyn then hostShape else hostShape.drop 1)
    raw outputHostShape

/-- Reference formulation of Step 3.5's selection in dynamic mode: walk the
raw expression with an explicit position counter and keep the integer
index tensors. -/
def rawIntTensorGathers : Nat → List IdxElem → List (Nat × Nat × List Nat)
  | _, [] => []
  | i, .tens id d sh :: rest =>
    if d = .int32 ∨ d = .int64 then (i, id, sh) :: rawIntTensorGathers (i + 1) rest
    else rawIntTensorGathers (i + 1) rest
  | i, .sl _ _ _ :: rest => rawIntTensorGathers (i + 1) rest
  | i, .idx _ :: rest => rawIntTensorGathers (i + 1) rest
  | i, .ell :: rest => rawIntTensorGathers (i + 1) rest
  | i, .newaxis :: rest => rawIntTensorGathers (i + 1) rest

/-- Substitution Step 1 performs on non-ellipsis elements: index tensors
become full slices, everything else is kept. -/
def elemSubst : IdxElem → IdxElem
  | .tens _ _ _ => fullSlice
  | e => e

/-- Condition `isinstance(s, torch.Tensor)` for index-expression elements. -/
def isTens : IdxElem → Bool
  | .tens _ _ _ => true
  | _ => false

/-! ## Interception wrapper (`attach_converter`) -/

/-- One intercepted host call: the registration's identity, its realness
flag, and the registered operations its host implementation invokes, in
order, while it executes. -/
inductive CallTree where
  | node (id : Nat) (isReal : Bool) (children : List CallTree)

/-- The wrapper produced by `attach_converter`, run over a sequence of
intercepted calls.  State is the reentrancy lock; the result is the final
lock value and the identities of the calls whose converters emitted, in
emission order.  Per the source: `skip` is the lock value at entry; a real
registration acquires the lock when it is free; the original method (the
children) always runs; when `skip` is false the converter runs after the
method and the lock is reset to free. -/
def runCalls : List CallTree → Bool → Bool × List Nat
  | [], lock => (lock, [])
  | CallTree.node id isReal children :: rest, lock =>
    let lockAcq := if lock then lock else if isReal then true else lock
    let inner := runCalls children lockAcq
    let after := if lock then inner else (false, inner.2 ++ [id])
    let tail := runCalls rest after.1
    (tail.1, after.2 ++ tail.2)
  termination_by l _ => sizeOf l

/-- A single wrapper invocation. -/
def runWrapper (t : CallTree) (lock : Bool) : Bool × List Nat :=
  runCalls [t] lock

/-- State after materialising host tensor `id` of host shape `sh` as a
constant: one constant layer appended and the `_trt` binding stored. -/
def bindLeaf (st : NetState) (id : Nat) (sh : List Nat) : NetState :=
  { nextNode := st.nextNode + 1,
    layers := st.layers ++ [LayerRec.constant st.nextNode sh (some id)],
    bindings := (id, ⟨st.nextNode, sh⟩) :: st.bindings }

/-! ## Theorems -/

/-- C2: for a slice element applied to a dimension of size `D`, with `None`
fields defaulting to `start = 0`, `stop = D`, `step = 1`, the element count
passed to the strided-slice node equals `floor((stop - start - 1) / step) + 1`;
concrete cases: `D = 5, (0, 5, 1)` gives 5; `D = 5, (1, None, 2)` gives 2;
`D = 5, (1, 3, 2)` gives 1; `D = 4, (0, 3, 4)` gives 1. -/
theorem slice_size_formula :
    (∀ (dim_size start stop step : Int),
        (slice_to_trt dim_size (some start) (some stop) (some step)).2.1
          = (stop - start - 1).fdiv step + 1)
    ∧ (∀ (dim_size start step : Int),
        (slice_to_trt dim_size (some start) none (some step)).2.1
          = (dim_size - start - 1).fdiv step + 1)
    ∧ (∀ dim_size : Int,
        (slice_to_trt dim_size none none none).2.1 = (dim_size - 0 - 1).fdiv 1 + 1)
    ∧ (slice_to_trt 5 (some 0) (some 5) (some 1)).2.1 = 5
    ∧ (slice_to_trt 5 (some 1) none (some 2)).2.1 = 2
    ∧ (slice_to_trt 5 (some 1) (some 3) (some 2)).2.1 = 1
    ∧ (slice_to_trt 4 (some 0) (some 3) (some 4)).2.1 = 1 :=
  ⟨fun _ _ _ _ => rfl, fun _ _ _ => rfl, fun _ => rfl,
   by decide, by decide, by decide, by decide⟩

/-- C3 counterexample: for the expression `(:, None, ...)` on a tensor of
host shape `(1, 5, 4, 3)`, the normalization expands the ellipsis to 3 full
slices (`len(input.shape) - num_slice_types(slices) = 4 - 1`), not 2 as the
claim states. -/
theorem ellipsis_expansion_cex :
    normalizeSlices [1, 5, 4, 3] [fullSlice, IdxElem.newaxis, IdxElem.ell]
      = [fullSlice, IdxElem.newaxis, fullSlice, fullSlice, fullSlice]
    ∧ ellipsisExpansionCount [1, 5, 4, 3] [fullSlice, IdxElem.newaxis, IdxElem.ell] = 3
    ∧ ¬ ellipsisExpansionCount [1, 5, 4, 3] [fullSlice, IdxElem.newaxis, IdxElem.ell] = 2 := by
  decide

/-- C4 counterexample: in legacy fixed-batch mode, indexing a host
shape-(1,5) tensor with `x[:, t]` (where `t` is a 2-element int32 index
tensor, host output shape (1,2)) emits no gather layer at all — the
normalization replaced the index tensor with a full slice before Step 2
rebound `slices` — and the resulting Graph Handle has shape `(1,)`, not the
`(2,)` the claim states. -/
theorem gather_emission_cex :
    (convert_getitem_traced false [1, 5]
        [fullSlice, IdxElem.tens 7 TDtype.int32 [2]] [1, 2]).gathers = []
    ∧ (convert_getitem_traced false [1, 5]
        [fullSlice, IdxElem.tens 7 TDtype.int32 [2]] [1, 2]).outShape = [1]
    ∧ ¬ (convert_getitem_traced false [1, 5]
        [fullSlice, IdxElem.tens 7 TDtype.int32 [2]] [1, 2]).outShape = [2] := by
  decide

/-- C5: evaluation at the failing input.  In legacy fixed-batch mode, for
host shape `(1, 5, 4)` and expression `x[:, 0:3]` (host output `(1, 3, 4)`),
the strided-slice loop walks `new_slices` — not the batch-stripped `slices`
— so the accumulated triples are `[(0, 1, 1), (0, 3, 1)]`: the first triple
is computed from the batch element against dimension size 1 and is applied
to the first non-batch graph dimension.  Computing the triples from the
remaining (batch-stripped) elements against the non-batch dimensions, as
the claim and the source's own Step-2 comment require, gives
`[(0, 3, 1), (0, 4, 1)]`. -/
theorem legacy_batch_strip_bug :
    (convert_getitem_traced false [1, 5, 4]
        [fullSlice, IdxElem.sl (some 0) (some 3) none] [1, 3, 4]).starts = [0, 0]
    ∧ (convert_getitem_traced false [1, 5, 4]
        [fullSlice, IdxElem.sl (some 0) (some 3) none] [1, 3, 4]).sizes = [1, 3]
    ∧ (convert_getitem_traced false [1, 5, 4]
        [fullSlice, IdxElem.sl (some 0) (some 3) none] [1, 3, 4]).strides = [1, 1]
    ∧ (convert_getitem_traced false [1, 5, 4]
        [fullSlice, IdxElem.sl (some 0) (some 3) none] [1, 3, 4]).outShape = [1, 3]
    ∧ accumTriples ([1, 5, 4].drop 1) 2
        ((normalizeSlices [1, 5, 4] [fullSlice, IdxElem.sl (some 0) (some 3) none]).drop 1) 0
        = [(0, 3, 1), (0, 4, 1)]
    ∧ ¬ (convert_getitem_traced false [1, 5, 4]
        [fullSlice, IdxElem.sl (some 0) (some 3) none] [1, 3, 4]).sizes = [3, 4] := by
  decide

/-- C6 counterexample: with only scalar operands, an `int` scalar followed
by a `float` scalar yields `torch.int32`, not the floating type — the first
scalar in operand order wins, so the choice is order-dependent (swapping
the operands yields `torch.float32`). -/
theorem scalar_dtype_cex :
    check_torch_dtype [Operand.iscalar 1, Operand.fscalar 2] = .ok TDtype.int32
    ∧ check_torch_dtype [Operand.fscalar 2, Operand.iscalar 1] = .ok TDtype.float32
    ∧ ¬ check_torch_dtype [Operand.iscalar 1, Operand.fscalar 2] = .ok TDtype.float32 := by
  refine ⟨rfl, rfl, by decide⟩

/-- C7 counterexample: for the operand set (rank-0 leaf tensor, int
scalar), the maximum tensor rank is 0, but the scalar operand is
materialised as a rank-1 `(1,)` constant and is not reshaped (padding only
triggers when a handle's rank is below the target), so the returned
handles have ranks 0 and 1 — not every returned handle has rank equal to
the maximum rank among tensor operands. -/
theorem broadcast_rank_cex :
    trt_ ⟨0, [], []⟩ [Operand.tensor 0 TDtype.float32 [], Operand.iscalar 3]
      = .ok (⟨2, [LayerRec.constant 0 [] (some 0), LayerRec.constant 1 [1] none],
          [(0, ⟨0, []⟩)]⟩,
        [⟨0, []⟩, ⟨1, [1]⟩])
    ∧ broadcastNumDim ⟨0, [], []⟩ [Operand.tensor 0 TDtype.float32 [], Operand.iscalar 3] = 0
    ∧ ¬ (∀ h ∈ [TrtTensor.mk 0 [], TrtTensor.mk 1 [1]],
          h.shape.length
            = broadcastNumDim ⟨0, [], []⟩
                [Operand.tensor 0 TDtype.float32 [], Operand.iscalar 3]) := by
  refine ⟨rfl, rfl, by decide⟩

/-- C10: scalar operands never receive a Shadow Binding: resolving the same
scalar value twice in one call materialises two distinct rank-1, size-1
constant nodes (distinct node identities), and a further call materialises
yet another; the binding table is untouched. -/
theorem scalar_constant_fresh (st : NetState) (v : Int) :
    trt_ st [Operand.iscalar v, Operand.iscalar v]
      = .ok ({ nextNode := st.nextNode + 2,
               layers := st.layers ++ [LayerRec.constant st.nextNode [1] none]
                 ++ [LayerRec.constant (st.nextNode + 1) [1] none],
               bindings := st.bindings },
             [⟨st.nextNode, [1]⟩, ⟨st.nextNode + 1, [1]⟩])
    ∧ st.nextNode ≠ st.nextNode + 1
    ∧ trt_ st [Operand.fscalar v, Operand.fscalar v]
      = .ok ({ nextNode := st.nextNode + 2,
               layers := st.layers ++ [LayerRec.constant st.nextNode [1] none]
                 ++ [LayerRec.constant (st.nextNode + 1) [1] none],
               bindings := st.bindings },
             [⟨st.nextNode, [1]⟩, ⟨st.nextNode + 1, [1]⟩]) := by
  refine ⟨rfl, by omega, rfl⟩

/-- C8: constant materialization of leaf tensors is idempotent.  For a
tensor with no Shadow Binding, the first resolution materialises exactly
one constant node and stores the handle as the tensor's binding; resolving
the same tensor again returns the identical handle and leaves the state
unchanged (no second constant node), and any later state that still holds
that binding also returns the identical handle unchanged. -/
theorem leaf_constant_idempotent (st : NetState) (id : Nat) (d : TDtype) (sh : List Nat)
    (h0 : lookupBinding st.bindings id = none) :
    trt_ st [Operand.tensor id d sh] = .ok (bindLeaf st id sh, [⟨st.nextNode, sh⟩])
    ∧ trt_ (bindLeaf st id sh) [Operand.tensor id d sh]
        = .ok (bindLeaf st id sh, [⟨st.nextNode, sh⟩])
    ∧ countConstantsFor (bindLeaf st id sh) id = countConstantsFor st id + 1
    ∧ ∀ st2 : NetState, lookupBinding st2.bindings id = some ⟨st.nextNode, sh⟩ →
        trt_ st2 [Operand.tensor id d sh] = .ok (st2, [⟨st.nextNode, sh⟩]) := by
  have hbl : lookupBinding (bindLeaf st id sh).bindings id = some ⟨st.nextNode, sh⟩ := by
    simp [bindLeaf, lookupBinding]
  refine ⟨?_, ?_, ?_, ?_⟩
  · simp [trt_, check_torch_dtype, checkTensorsDtype, scalarsDtype, broadcastNumDim,
      dimContribution, effShape, h0, trtList, trtOne, stepBind, padTo, addConstant,
      bindTensor, bindLeaf, Nat.zero_max]
  · simp [trt_, check_torch_dtype, checkTensorsDtype, scalarsDtype, broadcastNumDim,
      dimContribution, effShape, hbl, trtList, trtOne, stepBind, padTo, Nat.zero_max]
  · simp [countConstantsFor, bindLeaf, isConstantFor, List.filter_append]
  · intro st2 h2
    simp [trt_, check_torch_dtype, checkTensorsDtype, scalarsDtype, broadcastNumDim,
      dimContribution, effShape, h2, trtList, trtOne, stepBind, padTo, Nat.zero_max]

/-- Witness for C8 at a concrete input: an unbound tensor of host shape
`[2]` in the empty state. -/
theorem leaf_constant_idempotent_witness :
    trt_ ⟨0, [], []⟩ [Operand.tensor 0 TDtype.float32 [2]]
        = .ok (bindLeaf ⟨0, [], []⟩ 0 [2], [⟨0, [2]⟩])
    ∧ trt_ (bindLeaf ⟨0, [], []⟩ 0 [2]) [Operand.tensor 0 TDtype.float32 [2]]
        = .ok (bindLeaf ⟨0, [], []⟩ 0 [2], [⟨0, [2]⟩])
    ∧ countConstantsFor (bindLeaf ⟨0, [], []⟩ 0 [2]) 0 = countConstantsFor ⟨0, [], []⟩ 0 + 1
    ∧ ∀ st2 : NetState, lookupBinding st2.bindings 0 = some ⟨0, [2]⟩ →
        trt_ st2 [Operand.tensor 0 TDtype.float32 [2]] = .ok (st2, [⟨0, [2]⟩]) :=
  leaf_constant_idempotent ⟨0, [], []⟩ 0 TDtype.float32 [2] rfl

/-- The dtype of a tensor operand is among the tensor dtypes of the list. -/
theorem mem_tensorDtypes {ops : List Operand} {id : Nat} {d : TDtype} {sh : List Nat}
    (h : Operand.tensor id d sh ∈ ops) : d ∈ tensorDtypes ops :=
  List.mem_filterMap.2 ⟨Operand.tensor id d sh, h, rfl⟩

/-- If the accumulated dtype together with the tensor dtypes of the
remaining operands contains two different dtypes, the first
`check_torch_dtype` loop hits the `assert(dtype == t.dtype)` failure. -/
theorem checkTensorsDtype_mismatch :
    ∀ (ops : List Operand) (acc : Option TDtype) (d1 d2 : TDtype),
      d1 ∈ acc.toList ++ tensorDtypes ops → d2 ∈ acc.toList ++ tensorDtypes ops → d1 ≠ d2 →
      checkTensorsDtype ops acc = .error .dtypeMismatch := by
  intro ops
  induction ops with
  | nil =>
    intro acc d1 d2 h1 h2 hne
    exfalso
    cases acc with
    | none => simp [tensorDtypes] at h1
    | some a =>
      simp [tensorDtypes] at h1 h2
      exact hne (h1.trans h2.symm)
  | cons op rest ih =>
    intro acc d1 d2 h1 h2 hne
    cases op with
    | tensor i dt s =>
      cases acc with
      | none =>
        simp only [checkTensorsDtype]
        refine ih (some dt) d1 d2 ?_ ?_ hne
        · simpa [tensorDtypes] using h1
        · simpa [tensorDtypes] using h2
      | some d0 =>
        by_cases hd : d0 = dt
        · subst hd
          simp only [checkTensorsDtype, if_pos rfl]
          refine ih (some d0) d1 d2 ?_ ?_ hne
          · have := h1
            simp [tensorDtypes] at this ⊢
            tauto
          · have := h2
            simp [tensorDtypes] at this ⊢
            tauto
        · simp [checkTensorsDtype, hd]
    | fscalar v =>
      simp only [checkTensorsDtype]
      refine ih acc d1 d2 ?_ ?_ hne
      · simpa [tensorDtypes] using h1
      · simpa [tensorDtypes] using h2
    | iscalar v =>
      simp only [checkTensorsDtype]
      refine ih acc d1 d2 ?_ ?_ hne
      · simpa [tensorDtypes] using h1
      · simpa [tensorDtypes] using h2

/-- If all dtypes among the accumulator and the tensor operands agree, the
first `check_torch_dtype` loop succeeds. -/
theorem checkTensorsDtype_ok_of_agree :
    ∀ (ops : List Operand) (acc : Option TDtype),
      (∀ d1 ∈ acc.toList ++ tensorDtypes ops, ∀ d2 ∈ acc.toList ++ tensorDtypes ops, d1 = d2) →
      ∃ r, checkTensorsDtype ops acc = .ok r := by
  intro ops
  induction ops with
  | nil => intro acc _; exact ⟨acc, rfl⟩
  | cons op rest ih =>
    intro acc hagree
    cases op with
    | tensor i dt s =>
      cases acc with
      | none =>
        simp only [checkTensorsDtype]
        refine ih (some dt) ?_
        intro d1 h1 d2 h2
        refine hagree d1 ?_ d2 ?_
        · simpa [tensorDtypes] using h1
        · simpa [tensorDtypes] using h2
      | some d0 =>
        have hd : d0 = dt := by
          refine hagree d0 ?_ dt ?_
          · simp
          · simp [tensorDtypes]
        subst hd
        simp only [checkTensorsDtype, if_pos rfl]
        refine ih (some d0) ?_
        intro d1 h1 d2 h2
        refine hagree d1 ?_ d2 ?_
        · simp [tensorDtypes] at h1 ⊢
          tauto
        · simp [tensorDtypes] at h2 ⊢
          tauto
    | fscalar v =>
      simp only [checkTensorsDtype]
      refine ih acc ?_
      intro d1 h1 d2 h2
      refine hagree d1 ?_ d2 ?_
      · simpa [tensorDtypes] using h1
      · simpa [tensorDtypes] using h2
    | iscalar v =>
      simp only [checkTensorsDtype]
      refine ih acc ?_
      intro d1 h1 d2 h2
      refine hagree d1 ?_ d2 ?_
      · simpa [tensorDtypes] using h1
      · simpa [tensorDtypes] using h2

/-- C9: if two tensor operands passed to the Broadcast Resolver disagree on
element type, `trt_` fails immediately with the dtype-mismatch assertion —
no state, no handles are returned; if all tensor operands agree on element
type exactly, no dtype-mismatch failure occurs. -/
theorem dtype_mismatch_fatal :
    (∀ (st : NetState) (ops : List Operand) (id1 : Nat) (d1 : TDtype) (s1 : List Nat)
        (id2 : Nat) (d2 : TDtype) (s2 : List Nat),
        Operand.tensor id1 d1 s1 ∈ ops → Operand.tensor id2 d2 s2 ∈ ops → d1 ≠ d2 →
        trt_ st ops = .error .dtypeMismatch)
    ∧ (∀ (st : NetState) (ops : List Operand),
        (∀ d1 ∈ tensorDtypes ops, ∀ d2 ∈ tensorDtypes ops, d1 = d2) →
        trt_ st ops ≠ .error .dtypeMismatch) := by
  constructor
  · intro st ops id1 d1 s1 id2 d2 s2 h1 h2 hne
    have herr := checkTensorsDtype_mismatch ops none d1 d2
      (by simpa using mem_tensorDtypes h1) (by simpa using mem_tensorDtypes h2) hne
    simp [trt_, check_torch_dtype, herr]
  · intro st ops hagree
    obtain ⟨r, hr⟩ := checkTensorsDtype_ok_of_agree ops none (by simpa using hagree)
    simp only [trt_, check_torch_dtype, hr]
    cases hsc : scalarsDtype ops r <;> simp

/-- Witness for C9 at concrete inputs: a float32/int32 tensor pair fails
with the mismatch error; a float32/float32 pair does not. -/
theorem dtype_mismatch_fatal_witness :
    trt_ ⟨0, [], []⟩ [Operand.tensor 0 TDtype.float32 [1], Operand.tensor 1 TDtype.int32 [1]]
      = .error .dtypeMismatch
    ∧ trt_ ⟨0, [], []⟩
        [Operand.tensor 0 TDtype.float32 [1], Operand.tensor 1 TDtype.float32 [2, 2]]
      ≠ .error .dtypeMismatch :=
  ⟨dtype_mismatch_fatal.1 ⟨0, [], []⟩ _ 0 TDtype.float32 [1] 1 TDtype.int32 [1]
      (by simp) (by simp) (by decide),
   dtype_mismatch_fatal.2 ⟨0, [], []⟩ _ (by decide)⟩

/-- With no tensor operands the first `check_torch_dtype` loop leaves the
accumulator untouched. -/
theorem checkTensorsDtype_no_tensors :
    ∀ (ops : List Operand) (acc : Option TDtype),
      (∀ op ∈ ops, op.isTensor = false) → checkTensorsDtype ops acc = .ok acc := by
  intro ops
  induction ops with
  | nil => intro acc _; rfl
  | cons op rest ih =>
    intro acc h
    cases op with
    | tensor i dt s => exact absurd (h _ (List.mem_cons_self _ _)) (by simp [Operand.isTensor])
    | fscalar v =>
      simp only [checkTensorsDtype]
      exact ih acc (fun op hm => h op (List.mem_cons_of_mem _ hm))
    | iscalar v =>
      simp only [checkTensorsDtype]
      exact ih acc (fun op hm => h op (List.mem_cons_of_mem _ hm))

/-- Once fixed, the dtype survives the scalar loop unchanged. -/
theorem scalarsDtype_some (ops : List Operand) (d : TDtype) :
    scalarsDtype ops (some d) = some d := by
  induction ops with
  | nil => rfl
  | cons op rest ih => cases op <;> simpa [scalarsDtype] using ih

/-- Starting from no dtype, the scalar loop returns the dtype of the first
scalar operand. -/
theorem scalarsDtype_none_eq_first (ops : List Operand) :
    scalarsDtype ops none = firstScalarDtype ops := by
  induction ops with
  | nil => rfl
  | cons op rest ih =>
    cases op with
    | tensor i dt s =>
      simpa [scalarsDtype, firstScalarDtype, List.findSome?, scalarKindDtype] using ih
    | fscalar v =>
      simp [scalarsDtype, firstScalarDtype, List.findSome?, scalarKindDtype, scalarsDtype_some]
    | iscalar v =>
      simp [scalarsDtype, firstScalarDtype, List.findSome?, scalarKindDtype, scalarsDtype_some]

/-- C6 (amended): when the Broadcast Resolver is given only numeric scalar
operands, the common element type is determined by the first scalar in
operand order — `torch.float` if it is a `float`, `torch.int32` if it is
an `int` — independent of any later scalars (so a later float does not
override an earlier int); with no operand at all the final
`assert(dtype is not None)` fails. -/
theorem scalar_dtype_amended (ops : List Operand)
    (h : ∀ op ∈ ops, op.isTensor = false) :
    check_torch_dtype ops
      = match firstScalarDtype ops with
        | some d => .ok d
        | none => .error .noDtype := by
  simp [check_torch_dtype, checkTensorsDtype_no_tensors ops none h,
    scalarsDtype_none_eq_first]

/-- Witness for C6 at a concrete input: `(1, 2.0)` — an int scalar followed
by a float scalar — resolves to the first scalar's dtype. -/
theorem scalar_dtype_amended_witness :
    check_torch_dtype [Operand.iscalar 1, Operand.fscalar 2]
      = match firstScalarDtype [Operand.iscalar 1, Operand.fscalar 2] with
        | some d => Except.ok d
        | none => Except.error TrtError.noDtype :=
  scalar_dtype_amended [Operand.iscalar 1, Operand.fscalar 2] (by decide)

/-- While the reentrancy lock is held, every wrapper invocation observes
`skip = true`: no emission happens and the lock is left untouched
(auxiliary form, by strong induction on the size of the call list). -/
theorem runCalls_locked_aux :
    ∀ (n : Nat) (l : List CallTree), sizeOf l ≤ n → runCalls l true = (true, []) := by
  intro n
  induction n with
  | zero =>
    intro l hl
    cases l with
    | nil => simp [runCalls]
    | cons t rest => simp at hl
  | succ n ih =>
    intro l hl
    cases l with
    | nil => simp [runCalls]
    | cons t rest =>
      cases t with
      | node id isReal children =>
        have h1 : runCalls children true = (true, []) := by
          apply ih
          simp at hl
          omega
        have h2 : runCalls rest true = (true, []) := by
          apply ih
          simp at hl
          omega
        simp [runCalls, h1, h2]

/-- While the reentrancy lock is held, a sequence of wrapper invocations
emits nothing and leaves the lock held. -/
theorem runCalls_locked (l : List CallTree) : runCalls l true = (true, []) :=
  runCalls_locked_aux (sizeOf l) l le_rfl

/-- C1: whenever a real-registered operation's wrapper is entered with the
lock FREE, and its host implementation internally invokes any nested
sequence of registered operations (covering all N ≥ 0), exactly one
converter emits — the outermost one — and the lock is FREE again when the
wrapper returns; while LOCKED, nested wrapper invocations emit nothing and
leave the lock unchanged. -/
theorem reentrancy_single_emitter :
    (∀ (id : Nat) (children : List CallTree),
        runWrapper (CallTree.node id true children) false = (false, [id]))
    ∧ ∀ nested : List CallTree, runCalls nested true = (true, []) := by
  constructor
  · intro id children
    simp [runWrapper, runCalls, runCalls_locked]
  · exact runCalls_locked

/-- On an ellipsis-free list the expansion loop only substitutes index
tensors by full slices and keeps everything else. -/
theorem expandEllipsis_no_ell :
    ∀ (l : List IdxElem) (n : Int), IdxElem.ell ∉ l →
      expandEllipsis l n = l.map elemSubst := by
  intro l
  induction l with
  | nil => intro n _; rfl
  | cons e rest ih =>
    intro n h
    have hrest : IdxElem.ell ∉ rest := fun hm => h (List.mem_cons_of_mem _ hm)
    cases e with
    | sl a b c => simp [expandEllipsis, elemSubst, ih n hrest]
    | idx v => simp [expandEllipsis, elemSubst, ih n hrest]
    | ell => exact absurd (List.mem_cons_self _ _) h
    | newaxis => simp [expandEllipsis, elemSubst, ih n hrest]
    | tens i d s => simp [expandEllipsis, elemSubst, ih n hrest]

/-- The expansion loop around the (first) ellipsis: elements before it are
substituted, the ellipsis becomes `max(0, n)` full slices, and the rest is
processed with the consumed counter. -/
theorem expandEllipsis_split :
    ∀ (pre post : List IdxElem) (n : Int), IdxElem.ell ∉ pre →
      expandEllipsis (pre ++ IdxElem.ell :: post) n
        = pre.map elemSubst ++ List.replicate n.toNat fullSlice
          ++ expandEllipsis post (if 0 < n then 0 else n) := by
  intro pre
  induction pre with
  | nil => intro post n _; simp [expandEllipsis]
  | cons e rest ih =>
    intro post n h
    have hrest : IdxElem.ell ∉ rest := fun hm => h (List.mem_cons_of_mem _ hm)
    cases e with
    | sl a b c => simp [expandEllipsis, elemSubst, ih post n hrest]
    | idx v => simp [expandEllipsis, elemSubst, ih post n hrest]
    | ell => exact absurd (List.mem_cons_self _ _) h
    | newaxis => simp [expandEllipsis, elemSubst, ih post n hrest]
    | tens i d s => simp [expandEllipsis, elemSubst, ih post n hrest]

/-- C3 (amended): during normalization, the single ellipsis expands to
`max(0, (tensor rank) - num_slice_types(expression))` full slices, where
`num_slice_types` counts the integer and slice elements (index tensors are
substituted by full slices, newaxis markers are kept); for the expression
`(:, None, ...)` on a tensor of host shape `(1, 5, 4, 3)` the ellipsis
expands to exactly 3 full slices, producing 4 consumed-dimension slots plus
one newaxis — matching the total input rank 4. -/
theorem ellipsis_expansion_amended :
    (∀ (hostShape : List Nat) (pre post : List IdxElem),
        IdxElem.ell ∉ pre → IdxElem.ell ∉ post →
        expandEllipsis (pre ++ IdxElem.ell :: post)
            ((hostShape.length : Int) - (num_slice_types (pre ++ IdxElem.ell :: post) : Int))
          = pre.map elemSubst
            ++ List.replicate
                (ellipsisExpansionCount hostShape (pre ++ IdxElem.ell :: post)) fullSlice
            ++ post.map elemSubst)
    ∧ ellipsisExpansionCount [1, 5, 4, 3] [fullSlice, IdxElem.newaxis, IdxElem.ell] = 3
    ∧ normalizeSlices [1, 5, 4, 3] [fullSlice, IdxElem.newaxis, IdxElem.ell]
        = [fullSlice, IdxElem.newaxis, fullSlice, fullSlice, fullSlice]
    ∧ num_slice_types (normalizeSlices [1, 5, 4, 3] [fullSlice, IdxElem.newaxis, IdxElem.ell]) = 4
    ∧ ((normalizeSlices [1, 5, 4, 3] [fullSlice, IdxElem.newaxis, IdxElem.ell]).filter
          (fun s => s = IdxElem.newaxis)).length = 1
    ∧ [1, 5, 4, 3].length = 4 := by
  refine ⟨?_, by decide, by decide, by decide, by decide, by decide⟩
  intro hostShape pre post hpre hpost
  rw [expandEllipsis_split pre post _ hpre, expandEllipsis_no_ell post _ hpost]
  rfl

/-- Witness for C3's general conjunct at the scenario input: prefix
`(:, None)`, empty suffix, host shape `(1, 5, 4, 3)`. -/
theorem ellipsis_expansion_amended_witness :
    expandEllipsis ([fullSlice, IdxElem.newaxis] ++ IdxElem.ell :: [])
        (([1, 5, 4, 3].length : Int)
          - (num_slice_types ([fullSlice, IdxElem.newaxis] ++ IdxElem.ell :: []) : Int))
      = [fullSlice, IdxElem.newaxis].map elemSubst
        ++ List.replicate
            (ellipsisExpansionCount [1, 5, 4, 3]
              ([fullSlice, IdxElem.newaxis] ++ IdxElem.ell :: [])) fullSlice
        ++ List.map elemSubst [] :=
  ellipsis_expansion_amended.1 [1, 5, 4, 3] [fullSlice, IdxElem.newaxis] []
    (by decide) (by decide)

/-- The expansion loop never outputs an index-tensor element. -/
theorem expandEllipsis_no_tens :
    ∀ (l : List IdxElem) (n : Int) (e : IdxElem),
      e ∈ expandEllipsis l n → isTens e = false := by
  intro l
  induction l with
  | nil => intro n e h; cases h
  | cons hd rest ih =>
    intro n e h
    cases hd with
    | ell =>
      rcases List.mem_append.1 h with h1 | h2
      · rw [List.eq_of_mem_replicate h1]; rfl
      · exact ih _ e h2
    | sl a b c =>
      rcases List.mem_cons.1 h with h1 | h2
      · subst h1; rfl
      · exact ih _ e h2
    | idx v =>
      rcases List.mem_cons.1 h with h1 | h2
      · subst h1; rfl
      · exact ih _ e h2
    | newaxis =>
      rcases List.mem_cons.1 h with h1 | h2
      · subst h1; rfl
      · exact ih _ e h2
    | tens i2 d s =>
      rcases List.mem_cons.1 h with h1 | h2
      · subst h1; rfl
      · exact ih _ e h2

/-- The normalized `new_slices` list never contains an index-tensor
element (Step 1 replaces them with full slices, and end padding appends
full slices). -/
theorem normalizeSlices_no_tens (shape : List Nat) (raw : List IdxElem) :
    ∀ e ∈ normalizeSlices shape raw, isTens e = false := by
  intro e h
  simp only [normalizeSlices] at h
  rcases List.mem_append.1 h with h1 | h2
  · exact expandEllipsis_no_tens raw _ e h1
  · rw [List.eq_of_mem_replicate h2]; rfl

/-- Step 3.5's enumeration equals the position-counting formulation. -/
theorem gatherPositions_eq :
    ∀ (l : List IdxElem) (i : Nat),
      (List.enumFrom i l).filterMap (fun p => match p.2 with
        | IdxElem.tens id d sh =>
          if d = TDtype.int32 ∨ d = TDtype.int64 then some (p.1, id, sh) else none
        | _ => none) = rawIntTensorGathers i l := by
  intro l
  induction l with
  | nil => intro i; rfl
  | cons e rest ih =>
    intro i
    cases e with
    | tens id d sh =>
      by_cases hd : d = TDtype.int32 ∨ d = TDtype.int64
      · simp [List.enumFrom, rawIntTensorGathers, hd, ih]
      · simp [List.enumFrom, rawIntTensorGathers, hd, ih]
    | sl a b c => simp [List.enumFrom, rawIntTensorGathers, ih]
    | idx v => simp [List.enumFrom, rawIntTensorGathers, ih]
    | ell => simp [List.enumFrom, rawIntTensorGathers, ih]
    | newaxis => simp [List.enumFrom, rawIntTensorGathers, ih]

/-- The selection `gatherPositions` walks the list left to right, selecting the integer
index-tensor elements with their positions. -/
theorem gatherPositions_spec (l : List IdxElem) :
    gatherPositions l = rawIntTensorGathers 0 l := by
  simpa [gatherPositions, List.enum] using gatherPositions_eq l 0

/-- A list without index-tensor elements selects no gathers. -/
theorem rawIntTensorGathers_nil :
    ∀ (l : List IdxElem) (i : Nat), (∀ e ∈ l, isTens e = false) →
      rawIntTensorGathers i l = [] := by
  intro l
  induction l with
  | nil => intro i _; rfl
  | cons e rest ih =>
    intro i h
    cases e with
    | tens id d sh => exact absurd (h _ (List.mem_cons_self _ _)) (by simp [isTens])
    | sl a b c =>
      simp only [rawIntTensorGathers]
      exact ih _ (fun e hm => h e (List.mem_cons_of_mem _ hm))
    | idx v =>
      simp only [rawIntTensorGathers]
      exact ih _ (fun e hm => h e (List.mem_cons_of_mem _ hm))
    | ell =>
      simp only [rawIntTensorGathers]
      exact ih _ (fun e hm => h e (List.mem_cons_of_mem _ hm))
    | newaxis =>
      simp only [rawIntTensorGathers]
      exact ih _ (fun e hm => h e (List.mem_cons_of_mem _ hm))

/-- C4 (amended): in dynamic mode, Step 3.5 emits one gather per
integer-dtype (`int32`/`long`) index-tensor element, against the slice
output, with the tensor's own handle as indices and the element's position
within the raw tuple-wrapped expression as the gather axis, chained left
to right; in legacy fixed-batch mode no gather is ever emitted, because
Step 1 replaces index tensors with full slices and Step 2 takes `slices`
from the normalized list; the shape-(1,5) scenario emits its gather only
in dynamic mode — at raw position 1 — and after the reshape to the host
output shape the resulting handle has shape `(1, 2)`. -/
theorem gather_emission_amended :
    (∀ (hostShape outHost : List Nat) (raw : List IdxElem),
        (convert_getitem_traced false hostShape raw outHost).gathers = [])
    ∧ (∀ (hostShape outHost : List Nat) (raw : List IdxElem),
        (convert_getitem_traced true hostShape raw outHost).gathers
          = (rawIntTensorGathers 0 raw).map (fun g => (g.2.1, g.1)))
    ∧ convert_getitem_traced true [1, 5] [fullSlice, IdxElem.tens 7 TDtype.int32 [2]] [1, 2]
        = { new_slices := [fullSlice, fullSlice],
            starts := [0, 0], sizes := [1, 5], strides := [1, 1],
            gathers := [(7, 1)], reshapeDims := some [1, 2], outShape := [1, 2] } := by
  refine ⟨?_, ?_, by decide⟩
  · intro hostShape outHost raw
    have hnil : gatherPositions ((normalizeSlices hostShape raw).drop 1) = [] := by
      rw [gatherPositions_spec]
      exact rawIntTensorGathers_nil _ 0
        (fun e he => normalizeSlices_no_tens hostShape raw e (List.drop_subset 1 _ he))
    rw [List.drop_one] at hnil
    simp [convert_getitem_traced, convert_tensor_getitem, hnil]
  · intro hostShape outHost raw
    simp [convert_getitem_traced, convert_tensor_getitem, gatherPositions_spec]

/-- The effective shape depends only on the bindings. -/
theorem effShape_congr {st1 st2 : NetState} (h : st1.bindings = st2.bindings)
    (id : Nat) (sh : List Nat) : effShape st1 id sh = effShape st2 id sh := by
  unfold effShape
  rw [h]

/-- The GET-OR-CREATE step returns a handle whose shape is the operand's
unpadded shape. -/
theorem stepBind_shape (st : NetState) (op : Operand) :
    ((stepBind st op).2).shape = origShape st op := by
  cases op with
  | tensor id d sh =>
    cases h : lookupBinding st.bindings id with
    | some hb => simp [stepBind, origShape, effShape, h]
    | none => simp [stepBind, origShape, effShape, h, addConstant, bindTensor]
  | fscalar v => rfl
  | iscalar v => rfl

/-- Padding never touches the bindings. -/
theorem padTo_bindings (st : NetState) (bnd : Nat) (h : TrtTensor) :
    ((padTo st bnd h).1).bindings = st.bindings := by
  unfold padTo
  split <;> simp [addShuffle]

/-- Processing one operand preserves the effective shape of any host
tensor whose host shape agrees with the operand's when the identities
collide (binding entries are only created, never overwritten, and a
created entry has the operand's host shape). -/
theorem effShape_trtOne (st : NetState) (bnd : Nat) (op : Operand) (id : Nat) (sh : List Nat)
    (hcompat : ∀ (d0 : TDtype) (sh0 : List Nat), op = Operand.tensor id d0 sh0 → sh = sh0) :
    effShape ((trtOne st bnd op).1) id sh = effShape st id sh := by
  simp only [trtOne]
  rw [effShape_congr (padTo_bindings ((stepBind st op).1) bnd ((stepBind st op).2)) id sh]
  cases op with
  | fscalar v => simp [stepBind, addConstant, effShape]
  | iscalar v => simp [stepBind, addConstant, effShape]
  | tensor id0 d0 sh0 =>
    cases hl : lookupBinding st.bindings id0 with
    | some h0 => simp [stepBind, hl]
    | none =>
      by_cases hid : id = id0
      · subst hid
        have hsh : sh = sh0 := hcompat d0 sh0 rfl
        subst hsh
        simp [stepBind, hl, addConstant, bindTensor, effShape, lookupBinding]
      · simp [stepBind, hl, addConstant, bindTensor, effShape, lookupBinding, hid]

/-- Result shape of the padding step, below-or-at target rank. -/
theorem padTo_shape (st : NetState) (bnd : Nat) (h : TrtTensor)
    (hle : h.shape.length ≤ bnd) :
    ((padTo st bnd h).2).shape = padShape bnd h.shape := by
  unfold padTo padShape
  by_cases hlt : h.shape.length < bnd
  · simp [hlt, addShuffle]
  · have heq : bnd - h.shape.length = 0 := by omega
    simp [hlt, heq]

/-- Padding to a target rank at least the current rank gives exactly the
target rank. -/
theorem padShape_length (bnd : Nat) (s : List Nat) (hle : s.length ≤ bnd) :
    (padShape bnd s).length = bnd := by
  simp [padShape]
  omega

/-- Shape of the handle returned for one operand. -/
theorem trtOne_shape (st : NetState) (bnd : Nat) (op : Operand)
    (hle : (origShape st op).length ≤ bnd) :
    ((trtOne st bnd op).2).shape = padShape bnd (origShape st op) := by
  simp only [trtOne]
  rw [padTo_shape _ _ _ (by rw [stepBind_shape]; exact hle), stepBind_shape]

/-- The running maximum only grows. -/
theorem acc_le_foldl_max (st : NetState) :
    ∀ (l : List Operand) (acc : Nat),
      acc ≤ l.foldl (fun a o => max a (dimContribution st o)) acc := by
  intro l
  induction l with
  | nil => intro acc; exact le_rfl
  | cons o rest ih =>
    intro acc
    exact le_trans (le_max_left _ _) (ih _)

/-- Every member's contribution is below the final running maximum. -/
theorem le_foldl_max (st : NetState) :
    ∀ (l : List Operand) (acc : Nat) (op : Operand), op ∈ l →
      dimContribution st op ≤ l.foldl (fun a o => max a (dimContribution st o)) acc := by
  intro l
  induction l with
  | nil => intro acc op h; cases h
  | cons o rest ih =>
    intro acc op h
    rcases List.mem_cons.1 h with h1 | h2
    · subst h1
      exact le_trans (le_max_right acc _) (acc_le_foldl_max st rest _)
    · exact ih _ op h2

/-- When the target rank is at least 1, every operand's unpadded shape has
rank at most the target rank (tensors because they were counted in the
maximum, scalars because their constant has rank 1). -/
theorem origShape_le_broadcast (st : NetState) (ops : List Operand)
    (hbnd : 1 ≤ broadcastNumDim st ops) :
    ∀ op ∈ ops, (origShape st op).length ≤ broadcastNumDim st ops := by
  intro op hm
  cases op with
  | tensor id d sh =>
    have h := le_foldl_max st ops 0 _ hm
    simpa [dimContribution, origShape, broadcastNumDim] using h
  | fscalar v => simpa [origShape] using hbnd
  | iscalar v => simpa [origShape] using hbnd

/-- Main loop invariant: as long as the effective shapes agree with the
entry state and are within the target rank, every produced handle carries
the left-padded shape of its operand. -/
theorem trtList_go :
    ∀ (ops : List Operand) (st0 st : NetState) (bnd : Nat),
      (∀ op ∈ ops, origShape st op = origShape st0 op) →
      (∀ op ∈ ops, (origShape st0 op).length ≤ bnd) →
      (∀ (id : Nat) (d1 : TDtype) (s1 : List Nat) (d2 : TDtype) (s2 : List Nat),
          Operand.tensor id d1 s1 ∈ ops → Operand.tensor id d2 s2 ∈ ops → s1 = s2) →
      List.Forall₂
        (fun op h => h.shape = padShape bnd (origShape st0 op) ∧ h.shape.length = bnd)
        ops (trtList bnd st ops).2 := by
  intro ops
  induction ops with
  | nil => intro st0 st bnd _ _ _; simp [trtList]
  | cons op rest ih =>
    intro st0 st bnd heq hle hwf
    have hop_eq : origShape st op = origShape st0 op := heq op (List.mem_cons_self _ _)
    have hop_le : (origShape st op).length ≤ bnd := by
      rw [hop_eq]; exact hle op (List.mem_cons_self _ _)
    have hshape : ((trtOne st bnd op).2).shape = padShape bnd (origShape st0 op) := by
      rw [trtOne_shape st bnd op hop_le, hop_eq]
    have hlen : ((trtOne st bnd op).2).shape.length = bnd := by
      rw [hshape]
      exact padShape_length bnd _ (hle op (List.mem_cons_self _ _))
    have hpres : ∀ op2 ∈ rest, origShape ((trtOne st bnd op).1) op2 = origShape st0 op2 := by
      intro op2 hm2
      cases op2 with
      | tensor id d sh =>
        have hstep : effShape ((trtOne st bnd op).1) id sh = effShape st id sh := by
          apply effShape_trtOne
          intro d0 sh0 hop
          refine hwf id d sh d0 sh0 (List.mem_cons_of_mem _ hm2) ?_
          rw [← hop]
          exact List.mem_cons_self _ _
        calc origShape ((trtOne st bnd op).1) (Operand.tensor id d sh)
            = effShape ((trtOne st bnd op).1) id sh := rfl
          _ = effShape st id sh := hstep
          _ = origShape st0 (Operand.tensor id d sh) := heq _ (List.mem_cons_of_mem _ hm2)
      | fscalar v => rfl
      | iscalar v => rfl
    have hrest := ih st0 ((trtOne st bnd op).1) bnd hpres
      (fun op2 hm2 => hle op2 (List.mem_cons_of_mem _ hm2))
      (fun id d1 s1 d2 s2 h1 h2 =>
        hwf id d1 s1 d2 s2 (List.mem_cons_of_mem _ h1) (List.mem_cons_of_mem _ h2))
    simp only [trtList]
    exact List.Forall₂.cons ⟨hshape, hlen⟩ hrest

/-- C7 (amended): the target rank is the maximum, over tensor operands, of
the operand's Graph Handle rank (for an unbound leaf, its host rank, which
is also the rank of the constant materialised for it); provided that
maximum is at least 1 — equivalently some tensor operand has rank ≥ 1 —
and the operand list is consistent (two tensor operands with the same
identity carry the same host shape, as Python object identity guarantees),
every handle returned by `trt_` has rank equal to the target rank, its
shape being the operand's unpadded shape left-padded with singleton
dimensions, so the trailing dimensions equal that operand's original shape
in order.  (When no tensor operand has rank ≥ 1, rank-1 scalar constants
are returned unpadded and can exceed the target rank.) -/
theorem broadcast_rank_amended (st : NetState) (ops : List Operand)
    (hwf : ∀ (id : Nat) (d1 : TDtype) (s1 : List Nat) (d2 : TDtype) (s2 : List Nat),
        Operand.tensor id d1 s1 ∈ ops → Operand.tensor id d2 s2 ∈ ops → s1 = s2)
    (hbnd : 1 ≤ broadcastNumDim st ops) :
    ∀ p, trt_ st ops = .ok p →
      List.Forall₂
        (fun op h => h.shape = padShape (broadcastNumDim st ops) (origShape st op)
          ∧ h.shape.length = broadcastNumDim st ops)
        ops p.2 := by
  intro p hp
  have hlist := trtList_go ops st st (broadcastNumDim st ops)
    (fun _ _ => rfl) (origShape_le_broadcast st ops hbnd) hwf
  unfold trt_ at hp
  cases hc : check_torch_dtype ops with
  | error e => rw [hc] at hp; cases hp
  | ok d =>
    rw [hc] at hp
    injection hp with hp2
    rw [← hp2]
    exact hlist

/-- Witness for C7 at a concrete input: a leaf tensor of host shape
`[2, 3]` and an int scalar in the empty state; target rank 2; the tensor's
constant is returned as is and the scalar constant is reshaped to
`[1, 1]`. -/
theorem broadcast_rank_amended_witness :
    List.Forall₂
      (fun (op : Operand) (h : TrtTensor) => h.shape
          = padShape
              (broadcastNumDim ⟨0, [], []⟩
                [Operand.tensor 0 TDtype.float32 [2, 3], Operand.iscalar 5])
              (origShape ⟨0, [], []⟩ op)
        ∧ h.shape.length
          = broadcastNumDim ⟨0, [], []⟩
              [Operand.tensor 0 TDtype.float32 [2, 3], Operand.iscalar 5])
      [Operand.tensor 0 TDtype.float32 [2, 3], Operand.iscalar 5]
      [⟨0, [2, 3]⟩, ⟨2, [1, 1]⟩] :=
  broadcast_rank_amended ⟨0, [], []⟩
    [Operand.tensor 0 TDtype.float32 [2, 3], Operand.iscalar 5]
    (by
      intro id d1 s1 d2 s2 h1 h2
      simp only [List.mem_cons, List.mem_singleton] at h1 h2
      rcases h1 with h1 | h1 <;> rcases h2 with h2 | h2 <;>
        simp_all)
    (by decide)
    (⟨3, [LayerRec.constant 0 [2, 3] (some 0), LayerRec.constant 1 [1] none,
        LayerRec.shuffle 2 1 [1, 1]], [(0, ⟨0, [2, 3]⟩)]⟩,
     [⟨0, [2, 3]⟩, ⟨2, [1, 1]⟩])
    rfl

end Torch2TRT
